import Mathlib

/-!
Verification of the `tila` capture/decode program (`src/main.rs`) against its
natural-language specification.  Strings are modelled as `List Char`; the
filesystem and process state that the code touches are modelled as explicit
values.  Every definition below is a direct translation of the corresponding
Rust function, keeping its name where Lean allows.
-/

namespace Tila

/-- Decides whether `pat` is a prefix of `hay` (character-wise equality),
used to model Rust `str::contains` / `str::rfind` occurrence tests. -/
def matchesAt : List Char → List Char → Bool
  | [], _ => true
  | _ :: _, [] => false
  | p :: ps, c :: cs => p == c && matchesAt ps cs

/-- Models Rust `hay.contains(pat)`: some position of `hay` starts an
occurrence of `pat`. -/
def containsSub (hay pat : List Char) : Bool :=
  (List.range (hay.length + 1)).any fun i => matchesAt pat (hay.drop i)

/-- Models Rust `hay.rfind(pat)`: the start index of the last occurrence of
`pat` in `hay`, if any. -/
def rfindIdx (hay pat : List Char) : Option Nat :=
  ((List.range (hay.length + 1)).filter fun i => matchesAt pat (hay.drop i)).getLast?

/-- The marker token `"id="` searched for in `parse_device_numbers`. -/
def idMarker : List Char := ['i', 'd', '=']

/-- Decimal value of a digit string, accumulated left to right exactly as an
integer parser does. -/
def natOfDigits (s : List Char) : Nat :=
  s.foldl (fun a c => a * 10 + (c.toNat - ('0').toNat)) 0

/-- Models Rust `str::parse::<u8>`: an optional leading plus sign, then one or
more ASCII digits, failing on an empty digit string, a non-digit character, or
a value above 255 (positive overflow). -/
def parseU8 (s : List Char) : Option Nat :=
  let digits := if s.head? = some '+' then s.tail else s
  if digits.isEmpty then none
  else if digits.all Char.isDigit then
    if natOfDigits digits ≤ 255 then some (natOfDigits digits) else none
  else none

/-- Models `line.contains("id=")`, the filter inside `parse_device_numbers`. -/
def hasId (line : List Char) : Bool :=
  containsSub line idMarker

/-- One line's identifier extraction in `parse_device_numbers`: the position
after the last `"id="` (`line.rfind("id=").unwrap() + 3`), the maximal ASCII
digit run from there (`take_while(char::is_ascii_digit)`), parsed as `u8`.
`none` models the `expect("Failed to parse id")` panic. -/
def idOfLine (line : List Char) : Option Nat :=
  match rfindIdx line idMarker with
  | none => none
  | some p => parseU8 ((line.drop (p + 3)).takeWhile Char.isDigit)

/-- Models `parse_device_numbers`: over the lines that contain `"id="`, in
order, extract and parse each identifier; `none` models the panic on the first
line whose identifier fails to parse. -/
def parse_device_numbers (lines : List (List Char)) : Option (List Nat) :=
  match lines with
  | [] => some []
  | l :: rest =>
    if hasId l then
      match idOfLine l, parse_device_numbers rest with
      | some n, some ns => some (n :: ns)
      | _, _ => none
    else parse_device_numbers rest

/-- Models Rust `str::to_lowercase` character-wise (all inputs of interest are
ASCII). -/
def toLowerL (s : List Char) : List Char := s.map Char.toLower

/-- The lines of the device-listing output that survive the name filter in
`get_device_numbers`: the whole output and the device name are lowercased, and
a line is kept when it contains the lowercased name as a substring. -/
def matchedLines (device_name : List Char) (outputLines : List (List Char)) :
    List (List Char) :=
  (outputLines.map toLowerL).filter fun l => containsSub l (toLowerL device_name)

/-- Models `get_device_numbers`, with the external `xinput list` output given
as its list of lines: lowercase everything, keep the lines containing the
device name, and parse the identifiers from them. -/
def get_device_numbers (device_name : List Char) (outputLines : List (List Char)) :
    Option (List Nat) :=
  parse_device_numbers (matchedLines device_name outputLines)

/-- Accumulator step of whitespace splitting: `acc` holds the characters of
the token currently being read, in reverse. -/
def splitWSAux : List Char → List Char → List (List Char)
  | [], acc => if acc.isEmpty then [] else [acc.reverse]
  | c :: cs, acc =>
    if c.isWhitespace then
      if acc.isEmpty then splitWSAux cs []
      else acc.reverse :: splitWSAux cs []
    else splitWSAux cs (c :: acc)

/-- Models Rust `str::split_whitespace`: maximal runs of non-whitespace
characters, with no empty tokens. -/
def splitWhitespace (s : List Char) : List (List Char) :=
  splitWSAux s []

/-- Models Rust `str::trim`: drop leading and trailing whitespace. -/
def trim (s : List Char) : List Char :=
  ((s.dropWhile Char.isWhitespace).reverse.dropWhile Char.isWhitespace).reverse

/-- The fixed keycode table built by `sugars::hmap!` in `decode`:
26 letters and the space character. -/
def keycode_translation : List (Nat × Char) :=
  [(24, 'q'), (25, 'w'), (26, 'e'), (27, 'r'), (28, 't'), (29, 'y'),
   (30, 'u'), (31, 'i'), (32, 'o'), (33, 'p'), (38, 'a'), (39, 's'),
   (40, 'd'), (41, 'f'), (42, 'g'), (43, 'h'), (44, 'j'), (45, 'k'),
   (46, 'l'), (52, 'z'), (53, 'x'), (54, 'c'), (55, 'v'), (56, 'b'),
   (57, 'n'), (58, 'm'), (65, ' ')]

/-- Models `keycode_translation.get(&keycode)` on the hash map: lookup by key. -/
def lookupKeycode (k : Nat) : Option Char :=
  (keycode_translation.find? fun p => p.1 == k).map fun p => p.2

/-- The per-line body of `decode` after splitting: four `next().unwrap()`
calls bind the first four whitespace-separated fields (any further fields are
left unconsumed in the iterator); `none` models a panic (an `unwrap` on a
missing field, or `expect` on an unparsable keycode of a `press` line);
`some (some c)` appends `c`; `some none` appends nothing. -/
def decodeFields : List (List Char) → Option (Option Char)
  | _ts :: _key :: operation :: keycode :: _rest =>
    if operation = "press".data then
      match parseU8 keycode with
      | none => none
      | some k => some (lookupKeycode k)
    else some none
  | _ => none

/-- One line of `decode`: trim, split on whitespace, process the fields. -/
def decodeLine (line : List Char) : Option (Option Char) :=
  decodeFields (splitWhitespace (trim line))

/-- Models `decode` on the lines of the log file: each line contributes its
character (if any) to the result in order; `none` models the panic on the
first malformed line. -/
def decode (lines : List (List Char)) : Option (List Char) :=
  match lines with
  | [] => some []
  | l :: rest =>
    match decodeLine l, decode rest with
    | some oc, some cs => some (oc.toList ++ cs)
    | _, _ => none

/-- State of one device listener: the lines sent so far on its channel, and
whether its loop has exited (`break`). -/
structure ListenerState where
  sent : List (List Char)
  terminated : Bool
deriving DecidableEq, Repr

/-- Models the loop of `activate_number_listener`, driven by the successive
iterations' observations: each entry pairs the sampled timestamp with the text
that `read_line` appends (`[]` at end of stream).  Per the source, `line` is
cleared, the timestamp and a space are written into it, `read_line` appends
the read text, and the loop breaks only when `line.is_empty()`; otherwise the
line is sent.  The list running out models looking at the loop after finitely
many iterations. -/
def activate_number_listener (iters : List (Nat × List Char)) (st : ListenerState) :
    ListenerState :=
  match iters with
  | [] => st
  | (ts, readText) :: rest =>
    if st.terminated then st
    else
      let line := ((Nat.repr ts).data ++ [' ']) ++ readText
      if line.isEmpty then { st with terminated := true }
      else activate_number_listener rest { st with sent := st.sent ++ [line] }

/-- The buffered writer over the log file: pending buffered characters and the
characters already flushed to the file. -/
structure BufWriterS where
  buffer : List Char
  file : List Char
deriving DecidableEq, Repr

/-- Models `write!(writer, ...)`: append to the buffer. -/
def bwWrite (w : BufWriterS) (s : List Char) : BufWriterS :=
  { w with buffer := w.buffer ++ s }

/-- Models `writer.flush()`: move the buffer to the file. -/
def bwFlush (w : BufWriterS) : BufWriterS :=
  { buffer := [], file := w.file ++ w.buffer }

/-- The receive loop of `write_uncompressed`: `out` is what has been printed
to standard output so far.  Each received line is echoed and written to the
buffered writer; when the channel yields no more values the writer is
flushed. -/
def sinkLoop : List (List Char) → List Char → BufWriterS → List Char × BufWriterS
  | [], out, w => (out, bwFlush w)
  | l :: rest, out, w => sinkLoop rest (out ++ l) (bwWrite w l)

/-- Models `write_uncompressed`, with the channel modelled as the sequence of
lines it delivers; returns the echoed output and the final writer state. -/
def write_uncompressed (received : List (List Char)) : List Char × BufWriterS :=
  sinkLoop received [] ⟨[], []⟩

/-- Models `create_folder_if_not_existent`, the directory state being `none`
when the path does not exist and `some entries` when it exists with the given
entries: `create_dir` runs only when the path does not exist. -/
def create_folder_if_not_existent {α : Type} (dir : Option (List α)) : Option (List α) :=
  match dir with
  | none => some []
  | some entries => some entries

/-- Models `get_log_file_path` on the entries of `read_dir`: the filename is
the format string tila-N.log where N is `file_count`, the number of
entries. -/
def get_log_file_path {α : Type} (entries : List α) : List Char :=
  ('t' :: 'i' :: 'l' :: 'a' :: '-' :: []) ++ (Nat.repr entries.length).data
    ++ ('.' :: 'l' :: 'o' :: 'g' :: [])

/-- The two things `main` can do after inspecting its arguments. -/
inductive MainAction where
  | runListeners : MainAction
  | decodePath : List Char → MainAction
deriving DecidableEq

/-- Models `main`: with no arguments (after skipping the program name) run the
capture pipeline; otherwise `decode(args.pop().unwrap())`, the popped element
being the last argument. -/
def tilaMain (args : List (List Char)) : MainAction :=
  if args.isEmpty then .runListeners
  else .decodePath (args.getLast?.getD [])

/-- A nonempty, whitespace-free token, the shape of the timestamp field that
`write!` places in front of each raw event line. -/
def isTokenB (t : List Char) : Bool :=
  !t.isEmpty && t.all fun c => !c.isWhitespace

/-! Helper lemmas about the embedded operations. -/

/-- The `contains("id=")` filter succeeds exactly when `rfind("id=")` finds a
position, so the `unwrap` after the filter in `parse_device_numbers` cannot
fail. -/
theorem hasId_iff (line : List Char) :
    hasId line = true ↔ (rfindIdx line idMarker).isSome = true := by
  simp only [hasId, containsSub, rfindIdx, List.getLast?_isSome, Ne,
    List.filter_eq_nil_iff, List.any_eq_true]
  push_neg
  simp

/-- When every line that contains the marker parses, `parse_device_numbers`
returns exactly those lines' identifiers, in order. -/
theorem pdn_all_some (lines : List (List Char))
    (h : ∀ l ∈ lines, hasId l = true → (idOfLine l).isSome = true) :
    parse_device_numbers lines =
      some ((lines.filter hasId).map fun l => (idOfLine l).getD 0) := by
  induction lines with
  | nil => rfl
  | cons l rest ih =>
    have hrest : ∀ x ∈ rest, hasId x = true → (idOfLine x).isSome = true :=
      fun x hx => h x (List.mem_cons_of_mem _ hx)
    by_cases hl : hasId l = true
    · obtain ⟨n, hn⟩ := Option.isSome_iff_exists.mp (h l (List.mem_cons_self _ _) hl)
      simp [parse_device_numbers, hl, hn, ih hrest, List.filter_cons]
    · simp [parse_device_numbers, hl, ih hrest, List.filter_cons]

/-- One line with the marker and an unparsable identifier makes the whole of
`parse_device_numbers` fail, modelling the panic. -/
theorem pdn_none_of_bad (lines : List (List Char)) (line : List Char)
    (hmem : line ∈ lines) (hid : hasId line = true) (hbad : idOfLine line = none) :
    parse_device_numbers lines = none := by
  induction lines with
  | nil => cases hmem
  | cons l rest ih =>
    rcases List.mem_cons.mp hmem with rfl | hm
    · simp [parse_device_numbers, hid, hbad]
    · have hrest := ih hm
      by_cases hl : hasId l = true
      · cases hio : idOfLine l <;> simp [parse_device_numbers, hl, hio, hrest]
      · simp [parse_device_numbers, hl, hrest]

/-- Splitting an all-whitespace tail yields at most the pending token. -/
theorem splitWSAux_all_ws (w : List Char) (acc : List Char)
    (h : ∀ c ∈ w, c.isWhitespace = true) :
    splitWSAux w acc = if acc.isEmpty then [] else [acc.reverse] := by
  induction w generalizing acc with
  | nil => rfl
  | cons c w ih =>
    have hc := h c (List.mem_cons_self _ _)
    have hw : ∀ x ∈ w, x.isWhitespace = true := fun x hx => h x (List.mem_cons_of_mem _ hx)
    by_cases ha : acc.isEmpty
    · simp [splitWSAux, hc, ha, ih [] hw]
    · simp [splitWSAux, hc, ha, ih [] hw]

/-- Leading whitespace does not change the splitting. -/
theorem splitWSAux_dropWhile (s : List Char) :
    splitWSAux (s.dropWhile Char.isWhitespace) [] = splitWSAux s [] := by
  induction s with
  | nil => rfl
  | cons c s ih =>
    by_cases hc : c.isWhitespace
    · simp [List.dropWhile_cons, hc, splitWSAux, ih]
    · simp [List.dropWhile_cons, hc]

/-- Trailing whitespace does not change the splitting. -/
theorem splitWSAux_append_ws (t w : List Char) (acc : List Char)
    (h : ∀ c ∈ w, c.isWhitespace = true) :
    splitWSAux (t ++ w) acc = splitWSAux t acc := by
  induction t generalizing acc with
  | nil =>
    simp only [List.nil_append]
    rw [splitWSAux_all_ws w acc h]
    rfl
  | cons c t ih =>
    by_cases hc : c.isWhitespace <;> by_cases ha : acc.isEmpty <;>
      simp [splitWSAux, hc, ha, ih]

/-- The `trim` in `decode` is invisible to `split_whitespace`. -/
theorem splitWhitespace_trim (s : List Char) :
    splitWhitespace (trim s) = splitWhitespace s := by
  unfold splitWhitespace trim
  have hsplit : s.dropWhile Char.isWhitespace =
      ((s.dropWhile Char.isWhitespace).reverse.dropWhile Char.isWhitespace).reverse ++
      ((s.dropWhile Char.isWhitespace).reverse.takeWhile Char.isWhitespace).reverse := by
    rw [← List.reverse_append,
      List.takeWhile_append_dropWhile Char.isWhitespace
        (s.dropWhile Char.isWhitespace).reverse,
      List.reverse_reverse]
  have hws : ∀ c ∈ ((s.dropWhile Char.isWhitespace).reverse.takeWhile
      Char.isWhitespace).reverse, c.isWhitespace = true := by
    intro c hc
    exact List.mem_takeWhile_imp (List.mem_reverse.mp hc)
  calc splitWSAux ((s.dropWhile Char.isWhitespace).reverse.dropWhile
          Char.isWhitespace).reverse []
      = splitWSAux (((s.dropWhile Char.isWhitespace).reverse.dropWhile
            Char.isWhitespace).reverse ++
          ((s.dropWhile Char.isWhitespace).reverse.takeWhile
            Char.isWhitespace).reverse) [] := by
        rw [splitWSAux_append_ws _ _ _ hws]
    _ = splitWSAux (s.dropWhile Char.isWhitespace) [] := by rw [← hsplit]
    _ = splitWSAux s [] := splitWSAux_dropWhile s

/-- A whitespace-free token followed by a space splits off as one field. -/
theorem splitWSAux_token_cons (c : Char) (tok rest acc : List Char)
    (hc : c.isWhitespace = false) (hnw : ∀ x ∈ tok, x.isWhitespace = false) :
    splitWSAux ((c :: tok) ++ ' ' :: rest) acc
      = (acc.reverse ++ c :: tok) :: splitWSAux rest [] := by
  induction tok generalizing c acc with
  | nil =>
    have hsp : (' ' : Char).isWhitespace = true := by decide
    simp [splitWSAux, hc, hsp]
  | cons d tok ih =>
    have hd := hnw d (List.mem_cons_self _ _)
    have htok : ∀ x ∈ tok, x.isWhitespace = false :=
      fun x hx => hnw x (List.mem_cons_of_mem _ hx)
    have step := ih d (c :: acc) hd htok
    simp only [List.cons_append] at step ⊢
    rw [splitWSAux, if_neg (by simp [hc])]
    rw [step]
    simp

/-- Decoding a line whose first field is a whitespace-free token reduces to
decoding that token together with the fields of the rest of the line. -/
theorem decodeLine_token (ts raw : List Char)
    (hne : ts ≠ []) (hnw : ∀ c ∈ ts, c.isWhitespace = false) :
    decodeLine (ts ++ ' ' :: raw) = decodeFields (ts :: splitWhitespace raw) := by
  unfold decodeLine
  rw [splitWhitespace_trim]
  cases ts with
  | nil => exact absurd rfl hne
  | cons c ts2 =>
    unfold splitWhitespace
    rw [splitWSAux_token_cons c ts2 raw [] (hnw c (List.mem_cons_self _ _))
      (fun x hx => hnw x (List.mem_cons_of_mem _ hx))]
    simp

/-- Fewer than four fields means a `next().unwrap()` panics. -/
theorem decodeFields_short (fs : List (List Char)) (h : fs.length < 4) :
    decodeFields fs = none := by
  rcases fs with _ | ⟨a, _ | ⟨b, _ | ⟨c, _ | ⟨d, r⟩⟩⟩⟩
  · rfl
  · rfl
  · rfl
  · rfl
  · simp only [List.length_cons] at h
    omega

/-- A token satisfying `isTokenB` is nonempty and whitespace-free. -/
theorem isTokenB_spec (t : List Char) (h : isTokenB t = true) :
    t ≠ [] ∧ ∀ c ∈ t, c.isWhitespace = false := by
  simp only [isTokenB, Bool.and_eq_true, Bool.not_eq_true', List.all_eq_true] at h
  refine ⟨?_, h.2⟩
  intro h0
  rw [h0] at h
  simp at h

/-- The line assembled by the listener loop always holds the timestamp and a
space, so it is never empty, even when the read appended nothing. -/
theorem listener_line_ne_empty (a r : List Char) :
    ((a ++ [' ']) ++ r).isEmpty = false := by
  simp [List.isEmpty_iff]

/-- A listener whose loop is running never reaches `break`, whatever its
reads yield. -/
theorem listener_stays_running (iters : List (Nat × List Char)) (st : ListenerState)
    (h : st.terminated = false) :
    (activate_number_listener iters st).terminated = false := by
  induction iters generalizing st with
  | nil => exact h
  | cons it rest ih =>
    obtain ⟨ts, readText⟩ := it
    rw [activate_number_listener, h]
    simp only [Bool.false_eq_true, if_false]
    rw [if_neg (by simp [listener_line_ne_empty])]
    exact ih _ rfl

/-- The sink loop echoes and buffers every received line in order and ends by
flushing everything into the file. -/
theorem sinkLoop_spec (received : List (List Char)) (out : List Char) (w : BufWriterS) :
    sinkLoop received out w =
      (out ++ received.flatten, ⟨[], w.file ++ (w.buffer ++ received.flatten)⟩) := by
  induction received generalizing out w with
  | nil => simp [sinkLoop, bwFlush]
  | cons l rest ih =>
    simp [sinkLoop, bwWrite, ih]

/-! Theorems settling the claims. -/

/-- C1: the specification says the listener loop of `activate_number_listener`
exits, closing its sender, once the underlying read yields an empty result;
in the code the timestamp and a space are written into `line` before the
emptiness check, so the check never fires: the loop never terminates, and at
an end-of-stream read it sends the bare timestamp prefix instead of
breaking. -/
theorem listener_never_terminates (iters : List (Nat × List Char)) :
    (activate_number_listener iters ⟨[], false⟩).terminated = false
    ∧ ∀ ts : Nat, (activate_number_listener [(ts, [])] ⟨[], false⟩).sent
        = [(Nat.repr ts).data ++ [' ']] := by
  refine ⟨listener_stays_running iters _ rfl, fun ts => ?_⟩
  rw [activate_number_listener]
  simp [activate_number_listener, listener_line_ne_empty]

/-- C2 (counterexample): a line with five whitespace-separated fields is
decoded successfully — the field after the keycode is ignored, not a fatal
parse error as the claim states. -/
theorem decode_extra_fields_tolerated :
    decode ["1 key press 24 extra".data] = some ['q'] := by decide

/-- C2 (amended): a line splitting into fewer than four whitespace-separated
fields is a fatal parse error of `decode`; fields beyond the fourth are
ignored. -/
theorem decode_short_line_fatal (line : List Char)
    (h : (splitWhitespace (trim line)).length < 4) :
    decodeLine line = none ∧ decode [line] = none := by
  have hl : decodeLine line = none := decodeFields_short _ h
  exact ⟨hl, by simp [decode, hl]⟩

/-- Witness for C2: the three-field line with no timestamp is fatal. -/
theorem decode_short_line_fatal_witness :
    decodeLine ("key press 24".data) = none ∧ decode ["key press 24".data] = none :=
  decode_short_line_fatal ("key press 24".data) (by decide)

/-- C3 (counterexample): a `release` line whose keycode field is not a number
is skipped silently by `decode`, not a fatal error as the claim states for
every operation. -/
theorem decode_release_bad_keycode_tolerated :
    decode ["1 key release zz".data] = some [] := by decide

/-- C3 (amended): an unparsable keycode field is fatal exactly when the
operation field is the literal `press`; for any other operation the keycode is
never parsed and the line contributes nothing. -/
theorem decode_unparsable_keycode_press_only (t k op kc : List Char)
    (rest : List (List Char)) :
    (parseU8 kc = none → decodeFields (t :: k :: "press".data :: kc :: rest) = none)
    ∧ (op ≠ "press".data → decodeFields (t :: k :: op :: kc :: rest) = some none) := by
  constructor
  · intro h
    simp [decodeFields, h]
  · intro h
    simp [decodeFields, h]

/-- Witness for C3: keycode `zz` is fatal under `press` and ignored under
`release`. -/
theorem decode_unparsable_keycode_press_only_witness :
    decodeFields ("1".data :: "key".data :: "press".data :: "zz".data :: []) = none
    ∧ decodeFields ("1".data :: "key".data :: "release".data :: "zz".data :: [])
        = some none := by
  have h := decode_unparsable_keycode_press_only ("1".data) ("key".data)
    ("release".data) ("zz".data) []
  exact ⟨h.1 (by decide), h.2 (by decide)⟩

/-- C4: with any timestamps (nonempty whitespace-free tokens), decoding
`<ts> key press 24` yields exactly `q`, decoding `<ts> key release 24` yields
no character, and decoding the records `key press 30`, `key press 31`,
`key release 30` in that order yields exactly the string `ui`. -/
theorem decode_scenarios (t0 t1 t2 t3 : List Char)
    (h0 : isTokenB t0 = true) (h1 : isTokenB t1 = true)
    (h2 : isTokenB t2 = true) (h3 : isTokenB t3 = true) :
    decode [t0 ++ ' ' :: "key press 24".data] = some ['q']
    ∧ decode [t0 ++ ' ' :: "key release 24".data] = some []
    ∧ decode [t1 ++ ' ' :: "key press 30".data, t2 ++ ' ' :: "key press 31".data,
        t3 ++ ' ' :: "key release 30".data] = some ('u' :: 'i' :: []) := by
  obtain ⟨hne0, hnw0⟩ := isTokenB_spec t0 h0
  obtain ⟨hne1, hnw1⟩ := isTokenB_spec t1 h1
  obtain ⟨hne2, hnw2⟩ := isTokenB_spec t2 h2
  obtain ⟨hne3, hnw3⟩ := isTokenB_spec t3 h3
  refine ⟨?_, ?_, ?_⟩
  · simp only [decode, decodeLine_token t0 _ hne0 hnw0]
    rfl
  · simp only [decode, decodeLine_token t0 _ hne0 hnw0]
    rfl
  · simp only [decode, decodeLine_token t1 _ hne1 hnw1,
      decodeLine_token t2 _ hne2 hnw2, decodeLine_token t3 _ hne3 hnw3]
    rfl

/-- Witness for C4: the scenarios at concrete timestamps. -/
theorem decode_scenarios_witness :
    decode ["1652024669524708 key press 24".data] = some ['q']
    ∧ decode ["1652024669524708 key release 24".data] = some []
    ∧ decode ["7 key press 30".data, "8 key press 31".data, "9 key release 30".data]
        = some ('u' :: 'i' :: []) :=
  decode_scenarios ("1652024669524708".data) ("7".data) ("8".data) ("9".data)
    (by decide) (by decide) (by decide) (by decide)

/-- C5: when every line that case-insensitively contains the device name and
carries the `id=` marker parses, discovery returns exactly those lines'
identifiers — each the parsed maximal digit run after the last `id=` — in the
order the lines occur in the listing. -/
theorem discovery_returns_all_matches (device_name : List Char)
    (outputLines : List (List Char))
    (h : ∀ l ∈ matchedLines device_name outputLines,
      hasId l = true → (idOfLine l).isSome = true) :
    get_device_numbers device_name outputLines =
      some (((matchedLines device_name outputLines).filter hasId).map
        fun l => (idOfLine l).getD 0) :=
  pdn_all_some _ h

/-- Witness for C5: two of three listing lines match and parse, giving the
two identifiers in text order. -/
theorem discovery_returns_all_matches_witness :
    get_device_numbers ("Keychron".data)
      ["x Keychron K2 id=11 [slave]".data, "mouse id=9".data, "KEYCHRON k3 id=12".data] =
      some [11, 12] := by
  rw [discovery_returns_all_matches ("Keychron".data)
    ["x Keychron K2 id=11 [slave]".data, "mouse id=9".data, "KEYCHRON k3 id=12".data]
    (by decide)]
  decide

/-- C6: a candidate line whose last `id=` is followed by zero digits makes the
identifier parse fail fatally — the line's extraction fails, and so does the
whole of `parse_device_numbers` on any line list containing the line. -/
theorem id_marker_zero_digits_fatal (line : List Char) (p : Nat)
    (hp : rfindIdx line idMarker = some p)
    (hd : (line.drop (p + 3)).takeWhile Char.isDigit = []) :
    idOfLine line = none ∧
      ∀ pre post, parse_device_numbers (pre ++ line :: post) = none := by
  have hnone : idOfLine line = none := by
    simp [idOfLine, hp, hd, parseU8]
  refine ⟨hnone, fun pre post => ?_⟩
  exact pdn_none_of_bad _ line (by simp)
    ((hasId_iff line).mpr (by simp [hp])) hnone

/-- Witness for C6: `id=` immediately followed by a non-digit. -/
theorem id_marker_zero_digits_fatal_witness :
    idOfLine ("aa id=x".data) = none ∧
      parse_device_numbers (["b c id=4".data] ++ ("aa id=x".data) :: []) = none := by
  have h := id_marker_zero_digits_fatal ("aa id=x".data) 3 (by decide) (by decide)
  exact ⟨h.1, h.2 ["b c id=4".data] []⟩

/-- C7: the log store creates the data directory exactly when it is absent
(and leaves an existing one untouched, with no error), and the allocated
filename embeds the count of entries in the directory — with three entries,
the filename embeds the number 3. -/
theorem log_store_spec (l entries : List Nat) :
    create_folder_if_not_existent (some l) = some l
    ∧ create_folder_if_not_existent (none : Option (List Nat)) = some []
    ∧ get_log_file_path entries
        = ('t' :: 'i' :: 'l' :: 'a' :: '-' :: []) ++ (Nat.repr entries.length).data
            ++ ('.' :: 'l' :: 'o' :: 'g' :: [])
    ∧ (entries.length = 3 → get_log_file_path entries = "tila-3.log".data) := by
  refine ⟨rfl, rfl, rfl, fun h => ?_⟩
  simp only [get_log_file_path, h]
  rfl

/-- Witness for C7: a directory with exactly three entries. -/
theorem log_store_spec_witness :
    get_log_file_path ([10, 20, 30] : List Nat) = "tila-3.log".data :=
  (log_store_spec [] [10, 20, 30]).2.2.2 (by decide)

/-- C8: the log sink echoes and appends the received records in exactly the
order the channel delivers them, and once the channel yields no more values
the buffered writer is flushed, leaving an empty buffer and the file holding
the records in order. -/
theorem sink_preserves_order (received : List (List Char)) :
    write_uncompressed received = (received.flatten, ⟨[], received.flatten⟩) := by
  simp [write_uncompressed, sinkLoop_spec]

/-- C9: invoked with two or more arguments, `main` never runs the capture
pipeline: it decodes the last argument, and dropping the first argument does
not change what it does. -/
theorem main_two_args_decodes_last (a b : List Char) (rest : List (List Char)) :
    tilaMain (a :: b :: rest) ≠ MainAction.runListeners
    ∧ tilaMain (a :: b :: rest)
        = MainAction.decodePath (((a :: b :: rest).getLast?).getD [])
    ∧ tilaMain (a :: b :: rest) = tilaMain (b :: rest) := by
  refine ⟨?_, rfl, ?_⟩
  · simp [tilaMain]
  · simp [tilaMain, List.getLast?_cons_cons]

/-- C10: identifiers are parsed as `u8`: a digit run after the last `id=`
whose value exceeds 255 fails to parse, so the line's extraction fails and
the whole of `parse_device_numbers` fails on any line list containing the
line, even though a nonempty numeric identifier is present. -/
theorem id_overflow_fatal (line : List Char) (p : Nat)
    (hp : rfindIdx line idMarker = some p)
    (hv : 255 < natOfDigits ((line.drop (p + 3)).takeWhile Char.isDigit)) :
    idOfLine line = none ∧
      ∀ pre post, parse_device_numbers (pre ++ line :: post) = none := by
  set run := (line.drop (p + 3)).takeWhile Char.isDigit with hrun
  have hdig : ∀ c ∈ run, c.isDigit = true := fun c hc => List.mem_takeWhile_imp hc
  have hne : run ≠ [] := by
    intro h0
    rw [h0] at hv
    simp [natOfDigits] at hv
  have hhead : ¬(run.head? = some '+') := by
    cases hr : run with
    | nil => exact absurd hr hne
    | cons c cs =>
      have hc : c.isDigit = true := hdig c (hr ▸ List.mem_cons_self _ _)
      simp only [hr, List.head?_cons, Option.some.injEq]
      intro hplus
      rw [hplus] at hc
      simp at hc
  have hparse : parseU8 run = none := by
    simp only [parseU8]
    rw [if_neg hhead]
    rw [if_neg (by simp [List.isEmpty_iff, hne])]
    rw [if_pos (List.all_eq_true.mpr hdig)]
    rw [if_neg (by omega)]
  have hnone : idOfLine line = none := by
    simp only [idOfLine, hp, ← hrun, hparse]
  refine ⟨hnone, fun pre post => ?_⟩
  exact pdn_none_of_bad _ line (by simp)
    ((hasId_iff line).mpr (by simp [hp])) hnone

/-- Witness for C10: the identifier 300 does not fit in a `u8`. -/
theorem id_overflow_fatal_witness :
    idOfLine ("aa id=300".data) = none ∧
      parse_device_numbers ([] ++ ("aa id=300".data) :: ["kb id=2".data]) = none := by
  have h := id_overflow_fatal ("aa id=300".data) 3 (by decide) (by decide)
  exact ⟨h.1, h.2 [] ["kb id=2".data]⟩

end Tila
